import Mathlib

/-!  Verification development for the sunrise/sunset notification bot
(`sunrise_bot.py`).

The Python source is shallowly embedded:

* pure numeric code is modelled over `ℚ` (exact rationals standing in for
  IEEE floats);
* the transcendental library functions `math.sin`, `math.cos`, `math.asin`,
  `math.acos` and the constant `math.pi` (used by `math.radians` /
  `math.degrees`) are abstracted as an explicit `MathOracle` parameter;
* the mutable globals `global_location`, `subscribed_chats`,
  `notified_events_global` become an explicit `BotState` threaded through
  the handlers;
* `datetime` values become `ℚ` POSIX timestamps (seconds); `astimezone`
  does not change the instant a datetime denotes, so instants compare by
  timestamp;
* the Telegram `send_message` calls become Boolean outcome oracles
  (`SendEnv`); an exception that the source catches is modelled as the
  corresponding outcome being `false`;
* Python strings become `List Char`; `str.replace` becomes `replaceAll`
  (left-to-right, non-overlapping, all occurrences).
-/

/-- Calendar date, the value of `datetime.date` / `now.date()`. -/
structure CalDate where
  y : Int
  m : Int
  d : Int
  deriving DecidableEq, Repr

/-- The event kind strings `"sunrise"` / `"sunset"` used in ledger keys. -/
inductive EventKind where
  | sunrise
  | sunset
  deriving DecidableEq, Repr

/-- Ledger key `(chat_id, now.date(), kind)` as built in `check_notifications`
(lines 260 and 265 of `sunrise_bot.py`). -/
abbrev NKey := Int × CalDate × EventKind

/-- The global location dictionary `{"lat": ..., "lon": ..., "tz": ...}`. -/
structure GeoLoc where
  lat : ℚ
  lon : ℚ
  tz : List Char
  deriving DecidableEq, Repr

/-- Per-chat subscriber dictionary `{user_id: first_name, ...}`, as an
insertion-ordered association list (CPython dicts preserve insertion order). -/
abbrev ChatSubs := List (Int × List Char)

/-- The global `subscribed_chats` dictionary `{chat_id: {...}, ...}`. -/
abbrev Registry := List (Int × ChatSubs)

/-- The mutable global state of the bot process. -/
structure BotState where
  location : Option GeoLoc
  subscribedChats : Registry
  notified : List NKey
  deriving DecidableEq, Repr

/-- The value of `datetime.now(tz)`: the instant as a timestamp together
with the local calendar date `now.date()`. -/
structure TickNow where
  ts : ℚ
  date : CalDate
  deriving DecidableEq, Repr

/-- Outcomes of the two send attempts (`parse_mode="HTML"` first, plain
second) for one notification; `false` models the call raising. -/
structure SendEnv where
  html : Bool
  plain : Bool
  deriving DecidableEq, Repr

/-!  ### The solar-time calculator (`calculate_sun_times`, lines 81-135)  -/

/-- Abstraction of the `math` library's transcendental functions and of the
float constant `pi` used by `math.radians` / `math.degrees`. -/
structure MathOracle where
  sin : ℚ → ℚ
  cos : ℚ → ℚ
  asin : ℚ → ℚ
  acos : ℚ → ℚ
  pi : ℚ

/-- `math.radians(d) = d * pi / 180` (the source's `deg2rad`). -/
def deg2rad (o : MathOracle) (d : ℚ) : ℚ := d * o.pi / 180

/-- `math.degrees(r) = r * 180 / pi` (the source's `rad2deg`). -/
def rad2deg (o : MathOracle) (r : ℚ) : ℚ := r * 180 / o.pi

/-- Python `int(x)`: truncation toward zero. -/
def pytrunc (q : ℚ) : Int := if 0 ≤ q then ⌊q⌋ else ⌈q⌉

/-- Python `x % m` for `m > 0`: the representative in `[0, m)`. -/
def pymod (q m : ℚ) : ℚ := q - m * ⌊q / m⌋

/-- Julian date of 0h UTC of the given day (lines 92-98): month shift,
century correction, `J0 = int(365.25*(year+4716)) + int(30.6001*(month+1))
+ day + B - 1524.5`.  Python `//` is floor division (`Int.fdiv`). -/
def julian0 (year month day : Int) : ℚ :=
  let year' := if month ≤ 2 then year - 1 else year
  let month' := if month ≤ 2 then month + 12 else month
  let A := Int.fdiv year' 100
  let B := 2 - A + Int.fdiv A 4
  (pytrunc ((365.25 : ℚ) * (year' + 4716)) : ℚ)
    + (pytrunc ((30.6001 : ℚ) * (month' + 1)) : ℚ)
    + day + B - 1524.5

/-- All intermediate values of `calculate_sun_times` (lines 100-125). -/
structure SunCalc where
  J_transit : ℚ
  cos_omega : ℚ
  cos_omega_clamped : ℚ
  omega_deg : ℚ
  J_rise : ℚ
  J_set : ℚ

/-- The body of `calculate_sun_times` up to the Julian dates of sunrise and
sunset (lines 100-125), kept with all intermediates exposed. -/
def sunCalc (o : MathOracle) (dt : CalDate) (lat lon : ℚ) : SunCalc :=
  let J0 := julian0 dt.y dt.m dt.d
  let n := J0 - 2451545.0 + 0.0008
  let J_star := n - lon / 360
  let M := pymod (357.5291 + 0.98560028 * J_star) 360
  let M_rad := deg2rad o M
  let C := 1.9148 * o.sin M_rad + 0.0200 * o.sin (2 * M_rad)
    + 0.0003 * o.sin (3 * M_rad)
  let lambda_sun := pymod (M + C + 180 + 102.9372) 360
  let lambda_rad := deg2rad o lambda_sun
  let J_transit := 2451545.0 + J_star + 0.0053 * o.sin M_rad
    - 0.0069 * o.sin (2 * lambda_rad)
  let delta := o.asin (o.sin lambda_rad * o.sin (deg2rad o 23.44))
  let h0 := deg2rad o (-0.83)
  let lat_rad := deg2rad o lat
  let cos_omega := (o.sin h0 - o.sin lat_rad * o.sin delta)
    / (o.cos lat_rad * o.cos delta)
  let cl := max (min cos_omega 1) (-1)
  let omega := o.acos cl
  let omega_deg := rad2deg o omega
  ⟨J_transit, cos_omega, cl, omega_deg,
    J_transit - omega_deg / 360.0, J_transit + omega_deg / 360.0⟩

/-- `julian_to_datetime` (lines 127-129): `timestamp = (j - 2440587.5) *
86400.0`, then `utcfromtimestamp(...)`; the instant is the timestamp. -/
def julianToTimestamp (j : ℚ) : ℚ := (j - 2440587.5) * 86400.0

/-- `calculate_sun_times(cur_date, lat, lon, tzinfo)` returning the sunrise
and sunset instants as timestamps; `astimezone(tzinfo)` (lines 133-134)
changes only the representation, never the instant. -/
def calculate_sun_times (o : MathOracle) (dt : CalDate) (lat lon : ℚ) :
    ℚ × ℚ :=
  let s := sunCalc o dt lat lon
  (julianToTimestamp s.J_rise, julianToTimestamp s.J_set)

/-!  ### Strings and `str.replace` (used by `send_notification`, line 222)  -/

/-- Fuel-indexed worker for Python `str.replace`: scan left to right, on a
match emit the replacement and resume after the matched occurrence.  The
fuel (initially the string length) only makes the recursion structural. -/
def replaceAllF (pat repl : List Char) : Nat → List Char → List Char
  | _, [] => []
  | 0, s => s
  | fuel + 1, c :: rest =>
    if pat.isPrefixOf (c :: rest) then
      repl ++ replaceAllF pat repl fuel (rest.drop (pat.length - 1))
    else
      c :: replaceAllF pat repl fuel rest

/-- Python `s.replace(pat, repl)` for a nonempty `pat`: replace every
occurrence, scanning left to right, non-overlapping. -/
def replaceAll (pat repl s : List Char) : List Char :=
  replaceAllF pat repl s.length s

/-- The literal `"<a href='tg://user?id="` deleted first (line 222). -/
def tagOpenPat : List Char :=
  ['<', 'a', ' ', 'h', 'r', 'e', 'f', '=', '\'', 't', 'g', ':', '/', '/',
   'u', 's', 'e', 'r', '?', 'i', 'd', '=']

/-- The literal `"'>"` replaced by a space second (line 222). -/
def tagMidPat : List Char := ['\'', '>']

/-- The literal `"</a>"` deleted third (line 222). -/
def tagClosePat : List Char := ['<', '/', 'a', '>']

/-- `plain_msg` (line 222): `msg.replace("<a href='tg://user?id=", "")
.replace("'>", " ").replace("</a>", "")`. -/
def plainMsg (msg : List Char) : List Char :=
  replaceAll tagClosePat []
    (replaceAll tagMidPat [' ']
      (replaceAll tagOpenPat [] msg))

/-- One rendered mention
`f"<a href='tg://user?id={uid}'>{name}</a>"` (line 259). -/
def mention (uid : Int) (name : List Char) : List Char :=
  tagOpenPat ++ (toString uid).data ++ tagMidPat ++ name ++ tagClosePat

/-- `" ".join([... for uid, name in subs.items()])` (line 259). -/
def mentionsOf (subs : ChatSubs) : List Char :=
  List.intercalate [' '] (subs.map fun p => mention p.1 p.2)

/-- Decimal digits of `n` left-padded with `'0'` to width `w`
(`strftime` zero padding). -/
def padNum (w : Nat) (n : Int) : List Char :=
  let s := Nat.toDigits 10 n.toNat
  List.replicate (w - s.length) '0' ++ s

/-- `now.strftime("%Y-%m-%d")` (line 256). -/
def dateStr (d : CalDate) : List Char :=
  padNum 4 d.y ++ '-' :: (padNum 2 d.m ++ '-' :: padNum 2 d.d)

/-- The sunrise notification text (line 263). -/
def sunriseMsg (d : CalDate) (mentions : List Char) : List Char :=
  "📅 ".data ++ dateStr d ++ "\n⏰ 10 мин до рассвета 🌅 ".data ++ mentions

/-- The sunset notification text (line 268). -/
def sunsetMsg (d : CalDate) (mentions : List Char) : List Char :=
  "📅 ".data ++ dateStr d ++ "\n⏰ 10 мин до заката 🌇 ".data ++ mentions

/-- Python `pat in s` on strings: `pat` occurs as a contiguous substring. -/
def containsSub (pat : List Char) : List Char → Bool
  | [] => pat.isEmpty
  | c :: rest => pat.isPrefixOf (c :: rest) || containsSub pat rest

/-!  ### Ledger, registry, delivery and the scheduler tick  -/

/-- `key in notified_events_global` (dict membership; values are always
`True`, so the dict is a set of keys). -/
def alreadySent (L : List NKey) (k : NKey) : Bool := decide (k ∈ L)

/-- `notified_events_global[key] = True` (line 217 / 224). -/
def markSent (L : List NKey) (k : NKey) : List NKey := k :: L

/-- `clear_notified_events` (lines 273-277): delete every key whose date
component differs from `today`, i.e. keep exactly the keys dated `today`. -/
def clear_notified_events (today : CalDate) (L : List NKey) : List NKey :=
  L.filter fun k => decide (k.2.1 = today)

/-- Result of one `send_notification` call: the new ledger, whether a
message was delivered, how many ledger assignments were executed, and the
texts actually handed to `send_message`. -/
structure SendResult where
  ledger : List NKey
  delivered : Bool
  markOps : Nat
  sent : List (List Char)
  deriving DecidableEq, Repr

/-- `send_notification(chat_id, msg, key)` (lines 214-226): try the HTML
send; on success mark the key; on exception try the plain send with
`plain_msg`; on its success mark the key; if both raise, change nothing. -/
def send_notification (e : SendEnv) (msg : List Char) (key : NKey)
    (L : List NKey) : SendResult :=
  if e.html then ⟨markSent L key, true, 1, [msg]⟩
  else if e.plain then ⟨markSent L key, true, 1, [plainMsg msg]⟩
  else ⟨L, false, 0, []⟩

/-- Python `abs` on a rational. -/
def pyabs (q : ℚ) : ℚ := if q < 0 then -q else q

/-- The firing test of `check_notifications` (lines 262 / 267):
`abs((now - notif).total_seconds()) < 30`. -/
def windowDue (nowTs notifTs : ℚ) : Bool :=
  decide (pyabs (nowTs - notifTs) < 30)

/-- `REMINDER_OFFSET = 10` (minutes, line 40). -/
def REMINDER_OFFSET : ℚ := 10

/-- The notification instant for one event kind:
`sunrise_dt - timedelta(minutes=REMINDER_OFFSET)` resp. the same for
sunset (lines 254-255), as a timestamp. -/
def notifTs (o : MathOracle) (d : CalDate) (loc : GeoLoc) :
    EventKind → ℚ
  | EventKind.sunrise =>
    (calculate_sun_times o d loc.lat loc.lon).1 - REMINDER_OFFSET * 60
  | EventKind.sunset =>
    (calculate_sun_times o d loc.lat loc.lon).2 - REMINDER_OFFSET * 60

/-- Handling of one ledger key inside the chat loop (lines 260-269):
`if key not in notified_events_global: if <window>: await
send_notification(...)`.  Returns the new ledger and the list of keys
successfully delivered by this step. -/
def processKey (e : SendEnv) (due : Bool) (msg : List Char) (key : NKey)
    (L : List NKey) : List NKey × List NKey :=
  if alreadySent L key then (L, [])
  else if due then
    let r := send_notification e msg key L
    (r.ledger, if r.delivered then [key] else [])
  else (L, [])

/-- The `for chat_id, subs in subscribed_chats.items():` loop of
`check_notifications` (lines 258-269): per chat, render the mentions and
process the sunrise key then the sunset key, threading the ledger. -/
def processChats (env : Int → EventKind → SendEnv) (nowTs : ℚ)
    (d : CalDate) (srN ssN : ℚ) :
    Registry → List NKey → List NKey × List NKey
  | [], L => (L, [])
  | (cid, subs) :: rest, L =>
    let ms := mentionsOf subs
    let p1 := processKey (env cid EventKind.sunrise) (windowDue nowTs srN)
      (sunriseMsg d ms) (cid, d, EventKind.sunrise) L
    let p2 := processKey (env cid EventKind.sunset) (windowDue nowTs ssN)
      (sunsetMsg d ms) (cid, d, EventKind.sunset) p1.1
    let pr := processChats env nowTs d srN ssN rest p2.1
    (pr.1, p1.2 ++ p2.2 ++ pr.2)

/-- `check_notifications` (lines 238-271): no-op without a location,
otherwise compute today's solar times, derive the two notification
instants, and run the chat loop.  The calculator is total (the clamp on
line 120 removes the only domain error), so the `except` path around it is
dead; every other exception is caught inside `send_notification` or by the
surrounding `try`, making the tick a total function.  Returns the new
state and the keys delivered this tick. -/
def check_notifications (o : MathOracle) (env : Int → EventKind → SendEnv)
    (now : TickNow) (st : BotState) : BotState × List NKey :=
  match st.location with
  | none => (st, [])
  | some loc =>
    let srN := notifTs o now.date loc EventKind.sunrise
    let ssN := notifTs o now.date loc EventKind.sunset
    let pr := processChats env now.ts now.date srN ssN
      st.subscribedChats st.notified
    ({ st with notified := pr.1 }, pr.2)

/-- One scheduler tick's inputs: the math library, the delivery outcomes
per (chat, kind), and the current wall-clock reading. -/
abbrev TickIn := MathOracle × (Int → EventKind → SendEnv) × TickNow

/-- A run of consecutive scheduler ticks (no ledger purge in between),
collecting every key successfully delivered. -/
def runTicks : BotState → List TickIn → BotState × List NKey
  | st, [] => (st, [])
  | st, (o, env, now) :: rest =>
    let r := check_notifications o env now st
    let rr := runTicks r.1 rest
    (rr.1, r.2 ++ rr.2)

/-!  ### The registry and the command handlers  -/

/-- Ordered-dict lookup `d[k]` / `k in d`. -/
def dictGet {α β : Type} [DecidableEq α] : List (α × β) → α → Option β
  | [], _ => none
  | (a, b) :: t, k => if a = k then some b else dictGet t k

/-- Ordered-dict update `d[k] = v`: overwrite in place, else append. -/
def dictSet {α β : Type} [DecidableEq α] :
    List (α × β) → α → β → List (α × β)
  | [], k, v => [(k, v)]
  | (a, b) :: t, k, v =>
    if a = k then (a, v) :: t else (a, b) :: dictSet t k v

/-- The subscription upsert inlined in `times` (lines 203-205):
`if chat_id not in subscribed_chats: subscribed_chats[chat_id] = {}` then
`subscribed_chats[chat_id][user.id] = user.first_name`. -/
def subscribe (S : Registry) (chat uid : Int) (name : List Char) :
    Registry :=
  let S1 := if (dictGet S chat).isSome then S else dictSet S chat []
  let inner := (dictGet S1 chat).getD []
  dictSet S1 chat (dictSet inner uid name)

/-- `members_of`: the subscriber dictionary of a chat (empty if absent). -/
def membersOf (S : Registry) (chat : Int) : ChatSubs :=
  (dictGet S chat).getD []

/-- Replies the modelled handlers can produce; message formatting is
abstracted to the data each reply carries. -/
inductive Reply where
  | promptSetLocation
  | timesText (d : CalDate) (sr ss : ℚ)
  | testSummary (sr ss : ℚ)
  | testSunrise (d : CalDate)
  | testSunset (d : CalDate)
  deriving DecidableEq, Repr

/-- The `/times` handler (lines 180-208): without a location reply with the
set-location prompt and change nothing; otherwise compute today's times,
upsert the invoking user into `subscribed_chats`, and reply with the text.
The calculator is total, so the `except` reply (line 195) is dead code in
the model. -/
def times (o : MathOracle) (now : TickNow) (chatId uid : Int)
    (name : List Char) (st : BotState) : BotState × Reply :=
  match st.location with
  | none => (st, Reply.promptSetLocation)
  | some loc =>
    let p := calculate_sun_times o now.date loc.lat loc.lon
    ({ st with subscribedChats := subscribe st.subscribedChats chatId uid name },
      Reply.timesText now.date p.1 p.2)

/-- The `/test` handler (lines 300-324): without a location reply with the
set-location prompt and change nothing; otherwise reply with the computed
times and the two synthetic notifications, changing no state and touching
no ledger. -/
def testCmd (o : MathOracle) (now : TickNow) (st : BotState) :
    BotState × List Reply :=
  match st.location with
  | none => (st, [Reply.promptSetLocation])
  | some loc =>
    let p := calculate_sun_times o now.date loc.lat loc.lon
    (st, [Reply.testSummary p.1 p.2, Reply.testSunrise now.date,
      Reply.testSunset now.date])

/-!  ### Concrete oracles used to evaluate the model on closed inputs  -/

/-- A concrete rational stand-in for the `math` library: `sin ≡ 0`,
`cos ≡ 1/2`, and an `acos` that is positive strictly below `1` — the
properties of the real functions that the generic theorems assume. -/
def oracleW : MathOracle :=
  { sin := fun _ => 0
    cos := fun _ => 1/2
    asin := fun x => x
    acos := fun v => if v < 1 then 1 else 0
    pi := 3 }

/-- A concrete rational stand-in for the `math` library realising a
polar-night situation: the resulting hour-angle cosine exceeds `1`, and
`acos 1 = 0` exactly as for `math.acos`. -/
def oracleP : MathOracle :=
  { sin := fun x => if x < 0 then 1/2 else 1/4
    cos := fun _ => 1/4
    asin := fun _ => 5
    acos := fun v => if 1 ≤ v then 0 else 3
    pi := 3 }

/-- Invariant shape used to track one fixed ledger key `k` across an
operation that turns ledger `L` into `L'` while delivering the keys `dl`:
a marked key stays marked and is never delivered again, an unmarked key is
either still unmarked and undelivered or marked and delivered exactly
once. -/
def KeyShape (k : NKey) (L L' dl : List NKey) : Prop :=
  (k ∈ L → k ∈ L' ∧ dl.count k = 0) ∧
  (k ∉ L → (k ∉ L' ∧ dl.count k = 0) ∨ (k ∈ L' ∧ dl.count k = 1))

/-!  ### Dictionary lemmas  -/

theorem dictGet_dictSet_self {α β : Type} [DecidableEq α]
    (l : List (α × β)) (k : α) (v : β) :
    dictGet (dictSet l k v) k = some v := by
  induction l with
  | nil => simp [dictGet, dictSet]
  | cons hd t ih =>
    obtain ⟨a, b⟩ := hd
    by_cases h : a = k <;> simp [dictGet, dictSet, h, ih]

theorem dictGet_dictSet_ne {α β : Type} [DecidableEq α]
    (l : List (α × β)) (k k' : α) (v : β) (h : k' ≠ k) :
    dictGet (dictSet l k v) k' = dictGet l k' := by
  have h' : ¬ (k = k') := fun he => h he.symm
  induction l with
  | nil => simp [dictGet, dictSet, h']
  | cons hd t ih =>
    obtain ⟨a, b⟩ := hd
    by_cases ha : a = k
    · subst ha
      simp [dictGet, dictSet, h']
    · simp [dictGet, dictSet, ha, ih]

theorem dictSet_dictSet {α β : Type} [DecidableEq α]
    (l : List (α × β)) (k : α) (v v' : β) :
    dictSet (dictSet l k v) k v' = dictSet l k v' := by
  induction l with
  | nil => simp [dictSet]
  | cons hd t ih =>
    obtain ⟨a, b⟩ := hd
    by_cases h : a = k <;> simp [dictSet, h, ih]

/-- `subscribe` in closed form: overwrite the chat's dictionary with the
updated member dictionary. -/
theorem subscribe_eq (S : Registry) (c u : Int) (n : List Char) :
    subscribe S c u n = dictSet S c (dictSet (membersOf S c) u n) := by
  unfold subscribe membersOf
  cases h : dictGet S c with
  | none => simp [h, dictGet_dictSet_self, dictSet_dictSet]
  | some i => simp [h]

/-!  ### Claim C3: the daily ledger purge  -/

/-- C3: after `clear_notified_events` with keep-date `D`, `alreadySent` is
false for every key whose date differs from `D`, and every key dated `D`
that was marked before the purge is still marked after it. -/
theorem C3_purge_exact (L : List NKey) (k : NKey) (D : CalDate) :
    (k.2.1 ≠ D → alreadySent (clear_notified_events D L) k = false) ∧
    (k.2.1 = D → alreadySent L k = true →
      alreadySent (clear_notified_events D L) k = true) := by
  constructor
  · intro hne
    simp only [alreadySent, clear_notified_events, decide_eq_false_iff_not]
    intro hmem
    exact hne (by simpa using (List.mem_filter.mp hmem).2)
  · intro he hm
    simp only [alreadySent, decide_eq_true_eq] at hm ⊢
    exact List.mem_filter.mpr ⟨hm, by simpa using he⟩

/-- Witness for C3 at a concrete ledger: a key dated one day earlier is
gone after purging with keep-date 2024-06-21, while a marked key dated
2024-06-21 survives. -/
theorem C3_purge_exact_witness :
    (((1 : Int), (⟨2024, 6, 20⟩ : CalDate), EventKind.sunrise).2.1
        ≠ (⟨2024, 6, 21⟩ : CalDate)) ∧
    alreadySent
      (clear_notified_events ⟨2024, 6, 21⟩
        [(1, ⟨2024, 6, 20⟩, EventKind.sunrise),
         (2, ⟨2024, 6, 21⟩, EventKind.sunset)])
      (1, ⟨2024, 6, 20⟩, EventKind.sunrise) = false ∧
    alreadySent
      (clear_notified_events ⟨2024, 6, 21⟩
        [(1, ⟨2024, 6, 20⟩, EventKind.sunrise),
         (2, ⟨2024, 6, 21⟩, EventKind.sunset)])
      (2, ⟨2024, 6, 21⟩, EventKind.sunset) = true :=
  ⟨by decide,
   (C3_purge_exact _ _ _).1 (by decide),
   (C3_purge_exact
      [(1, ⟨2024, 6, 20⟩, EventKind.sunrise),
       (2, ⟨2024, 6, 21⟩, EventKind.sunset)]
      (2, ⟨2024, 6, 21⟩, EventKind.sunset) ⟨2024, 6, 21⟩).2
     (by decide) (by decide)⟩

/-!  ### Claim C5: one fallback, at most one ledger mark  -/

/-- C5: in `send_notification`, a successful HTML send marks the key
exactly once; a failed HTML send followed by a successful plain send
delivers `plainMsg msg` and marks the key exactly once; and when both
attempts fail the ledger is left unchanged, so the key stays retryable. -/
theorem C5_mark_exactly_once (e : SendEnv) (msg : List Char) (k : NKey)
    (L : List NKey) :
    (e.html = true →
      (send_notification e msg k L).markOps = 1 ∧
      alreadySent (send_notification e msg k L).ledger k = true ∧
      (send_notification e msg k L).sent = [msg]) ∧
    (e.html = false → e.plain = true →
      (send_notification e msg k L).markOps = 1 ∧
      alreadySent (send_notification e msg k L).ledger k = true ∧
      (send_notification e msg k L).sent = [plainMsg msg]) ∧
    (e.html = false → e.plain = false →
      (send_notification e msg k L).markOps = 0 ∧
      (send_notification e msg k L).ledger = L) := by
  obtain ⟨h, p⟩ := e
  cases h <;> cases p <;>
    simp [send_notification, alreadySent, markSent]

/-- Witness for C5: HTML failure followed by a successful plain send, on a
concrete message and empty ledger. -/
theorem C5_mark_exactly_once_witness :
    (send_notification ⟨false, true⟩ ("hi".data)
        (1, ⟨2024, 6, 21⟩, EventKind.sunrise) []).markOps = 1 ∧
    alreadySent
      (send_notification ⟨false, true⟩ ("hi".data)
        (1, ⟨2024, 6, 21⟩, EventKind.sunrise) []).ledger
      (1, ⟨2024, 6, 21⟩, EventKind.sunrise) = true ∧
    (send_notification ⟨false, true⟩ ("hi".data)
        (1, ⟨2024, 6, 21⟩, EventKind.sunrise) []).sent
      = [plainMsg ("hi".data)] :=
  (C5_mark_exactly_once ⟨false, true⟩ ("hi".data)
    (1, ⟨2024, 6, 21⟩, EventKind.sunrise) []).2.1 rfl rfl

/-!  ### Claim C8: no location configured means no-op  -/

/-- C8: with no location configured, a scheduler tick changes nothing and
sends nothing, and both `/times` and `/test` reply with the set-location
prompt without any other state change. -/
theorem C8_no_location (o : MathOracle) (env : Int → EventKind → SendEnv)
    (now : TickNow) (chatId uid : Int) (name : List Char) (st : BotState)
    (h : st.location = none) :
    check_notifications o env now st = (st, []) ∧
    times o now chatId uid name st = (st, Reply.promptSetLocation) ∧
    testCmd o now st = (st, [Reply.promptSetLocation]) := by
  refine ⟨?_, ?_, ?_⟩ <;> simp [check_notifications, times, testCmd, h]

/-- Witness for C8 on a concrete location-less state. -/
theorem C8_no_location_witness :
    check_notifications oracleW (fun _ _ => ⟨true, true⟩)
        ⟨0, ⟨2024, 6, 21⟩⟩ ⟨none, [(1, [])], []⟩
      = (⟨none, [(1, [])], []⟩, []) ∧
    times oracleW ⟨0, ⟨2024, 6, 21⟩⟩ 1 7 ("Ann".data) ⟨none, [(1, [])], []⟩
      = (⟨none, [(1, [])], []⟩, Reply.promptSetLocation) ∧
    testCmd oracleW ⟨0, ⟨2024, 6, 21⟩⟩ ⟨none, [(1, [])], []⟩
      = (⟨none, [(1, [])], []⟩, [Reply.promptSetLocation]) :=
  C8_no_location oracleW (fun _ _ => ⟨true, true⟩) ⟨0, ⟨2024, 6, 21⟩⟩
    1 7 ("Ann".data) ⟨none, [(1, [])], []⟩ rfl

/-!  ### Claim C9: the subscription upsert  -/

/-- C9: `subscribe` is an idempotent upsert whose last display name wins;
`/times` performs exactly this upsert for the invoking user; membership is
never removed by `subscribe`, and neither the scheduler tick nor `/test`
touches the registry at all. -/
theorem C9_subscribe_upsert (S : Registry) (c u c' u' : Int)
    (n : List Char) (o : MathOracle) (env : Int → EventKind → SendEnv)
    (now : TickNow) (st : BotState) (loc : GeoLoc) :
    subscribe (subscribe S c u n) c u n = subscribe S c u n ∧
    dictGet (membersOf (subscribe S c u n) c) u = some n ∧
    (st.location = some loc →
      ((times o now c u n st).1).subscribedChats
        = subscribe st.subscribedChats c u n) ∧
    ((dictGet (membersOf S c') u').isSome →
      (dictGet (membersOf (subscribe S c u n) c') u').isSome) ∧
    ((check_notifications o env now st).1.subscribedChats
        = st.subscribedChats ∧
      (testCmd o now st).1.subscribedChats = st.subscribedChats) := by
  have hmem : membersOf (subscribe S c u n) c
      = dictSet (membersOf S c) u n := by
    rw [subscribe_eq]
    unfold membersOf
    rw [dictGet_dictSet_self]
    rfl
  refine ⟨?_, ?_, ?_, ?_, ?_, ?_⟩
  · rw [subscribe_eq (subscribe S c u n), hmem, dictSet_dictSet,
      subscribe_eq S, dictSet_dictSet]
  · rw [hmem, dictGet_dictSet_self]
  · intro h
    cases st with
    | mk l sc nt =>
      simp only at h
      subst h
      simp [times]
  · intro h
    by_cases hc : c' = c
    · subst hc
      rw [hmem]
      by_cases hu : u' = u
      · subst hu
        rw [dictGet_dictSet_self]
        rfl
      · rwa [dictGet_dictSet_ne _ _ _ _ hu]
    · rw [subscribe_eq]
      unfold membersOf
      rwa [dictGet_dictSet_ne _ _ _ _ hc]
  · cases hl : st.location with
    | none => simp [check_notifications, hl]
    | some l => simp [check_notifications, hl]
  · cases hl : st.location with
    | none => simp [testCmd, hl]
    | some l => simp [testCmd, hl]

/-- Witness for C9: concrete registry, a repeat subscription by user 7
with a new name, and a `/times` call on a state with a location. -/
theorem C9_subscribe_upsert_witness :
    dictGet
      (membersOf
        (subscribe (subscribe [] 1 7 ("Ann".data)) 1 7 ("Bea".data)) 1) 7
      = some ("Bea".data) ∧
    ((times oracleW ⟨0, ⟨2024, 6, 21⟩⟩ 1 7 ("Ann".data)
        ⟨some ⟨51, 0, "UTC".data⟩, [], []⟩).1).subscribedChats
      = subscribe [] 1 7 ("Ann".data) :=
  ⟨(C9_subscribe_upsert (subscribe [] 1 7 ("Ann".data)) 1 7 1 7
      ("Bea".data) oracleW (fun _ _ => ⟨true, true⟩) ⟨0, ⟨2024, 6, 21⟩⟩
      ⟨some ⟨51, 0, "UTC".data⟩, [], []⟩ ⟨51, 0, "UTC".data⟩).2.1,
   (C9_subscribe_upsert [] 1 7 1 7 ("Ann".data) oracleW
      (fun _ _ => ⟨true, true⟩) ⟨0, ⟨2024, 6, 21⟩⟩
      ⟨some ⟨51, 0, "UTC".data⟩, [], []⟩ ⟨51, 0, "UTC".data⟩).2.2.1 rfl⟩

/-!  ### Ledger-key tracking across ticks (claims C2, C7, C1)  -/

theorem keyShape_id (k : NKey) (L : List NKey) : KeyShape k L L [] :=
  ⟨fun hk => ⟨hk, rfl⟩, fun hk => Or.inl ⟨hk, rfl⟩⟩

theorem keyShape_fire (k key : NKey) (L : List NKey) (hkey : key ∉ L) :
    KeyShape k L (key :: L) [key] := by
  constructor
  · intro hk
    have hne : k ≠ key := fun he => hkey (he ▸ hk)
    exact ⟨List.mem_cons_of_mem _ hk, by simp [List.count_cons, hne]⟩
  · intro hk
    by_cases he : k = key
    · subst he
      exact Or.inr ⟨List.mem_cons_self _ _, by simp⟩
    · exact Or.inl ⟨by simp [List.mem_cons, he, hk],
        by simp [List.count_cons, he]⟩

theorem keyShape_comp {k : NKey} {L L1 L2 d1 d2 : List NKey}
    (h1 : KeyShape k L L1 d1) (h2 : KeyShape k L1 L2 d2) :
    KeyShape k L L2 (d1 ++ d2) := by
  obtain ⟨h1i, h1o⟩ := h1
  obtain ⟨h2i, h2o⟩ := h2
  constructor
  · intro hk
    obtain ⟨hk1, hc1⟩ := h1i hk
    obtain ⟨hk2, hc2⟩ := h2i hk1
    exact ⟨hk2, by simp [List.count_append, hc1, hc2]⟩
  · intro hk
    rcases h1o hk with ⟨hn1, hc1⟩ | ⟨hy1, hc1⟩
    · rcases h2o hn1 with ⟨hn2, hc2⟩ | ⟨hy2, hc2⟩
      · exact Or.inl ⟨hn2, by simp [List.count_append, hc1, hc2]⟩
      · exact Or.inr ⟨hy2, by simp [List.count_append, hc1, hc2]⟩
    · obtain ⟨hk2, hc2⟩ := h2i hy1
      exact Or.inr ⟨hk2, by simp [List.count_append, hc1, hc2]⟩

theorem processKey_shape (e : SendEnv) (due : Bool) (msg : List Char)
    (key : NKey) (L : List NKey) (k : NKey) :
    KeyShape k L (processKey e due msg key L).1
      (processKey e due msg key L).2 := by
  by_cases hs : alreadySent L key = true
  · simpa [processKey, hs] using keyShape_id k L
  · have hkey : key ∉ L := by simpa [alreadySent] using hs
    rcases e with ⟨eh, ep⟩
    cases due
    · simpa [processKey, hs] using keyShape_id k L
    · cases eh
      · cases ep
        · simpa [processKey, hs, send_notification]
            using keyShape_id k L
        · simpa [processKey, hs, send_notification, markSent]
            using keyShape_fire k key L hkey
      · simpa [processKey, hs, send_notification, markSent]
          using keyShape_fire k key L hkey

theorem processChats_shape (env : Int → EventKind → SendEnv) (nowTs : ℚ)
    (d : CalDate) (srN ssN : ℚ) (k : NKey) :
    ∀ (chats : Registry) (L : List NKey),
      KeyShape k L (processChats env nowTs d srN ssN chats L).1
        (processChats env nowTs d srN ssN chats L).2 := by
  intro chats
  induction chats with
  | nil => intro L; simpa [processChats] using keyShape_id k L
  | cons hd rest ih =>
    intro L
    obtain ⟨cid, subs⟩ := hd
    have s1 := processKey_shape (env cid EventKind.sunrise)
      (windowDue nowTs srN) (sunriseMsg d (mentionsOf subs))
      (cid, d, EventKind.sunrise) L k
    have s2 := processKey_shape (env cid EventKind.sunset)
      (windowDue nowTs ssN) (sunsetMsg d (mentionsOf subs))
      (cid, d, EventKind.sunset)
      (processKey (env cid EventKind.sunrise) (windowDue nowTs srN)
        (sunriseMsg d (mentionsOf subs)) (cid, d, EventKind.sunrise) L).1 k
    have s3 := ih
      (processKey (env cid EventKind.sunset) (windowDue nowTs ssN)
        (sunsetMsg d (mentionsOf subs)) (cid, d, EventKind.sunset)
        (processKey (env cid EventKind.sunrise) (windowDue nowTs srN)
          (sunriseMsg d (mentionsOf subs)) (cid, d, EventKind.sunrise)
          L).1).1
    simpa [processChats] using keyShape_comp s1 (keyShape_comp s2 s3)

theorem check_notifications_shape (o : MathOracle)
    (env : Int → EventKind → SendEnv) (now : TickNow) (st : BotState)
    (k : NKey) :
    KeyShape k st.notified (check_notifications o env now st).1.notified
      (check_notifications o env now st).2 := by
  cases hl : st.location with
  | none => simpa [check_notifications, hl] using keyShape_id k st.notified
  | some loc =>
    have h := processChats_shape env now.ts now.date
      (notifTs o now.date loc EventKind.sunrise)
      (notifTs o now.date loc EventKind.sunset) k
      st.subscribedChats st.notified
    simpa [check_notifications, hl] using h

theorem runTicks_shape (k : NKey) :
    ∀ (ins : List TickIn) (st : BotState),
      KeyShape k st.notified (runTicks st ins).1.notified
        (runTicks st ins).2 := by
  intro ins
  induction ins with
  | nil => intro st; simpa [runTicks] using keyShape_id k st.notified
  | cons t rest ih =>
    intro st
    obtain ⟨o, env, now⟩ := t
    have h1 := check_notifications_shape o env now st k
    have h2 := ih (check_notifications o env now st).1
    simpa [runTicks] using keyShape_comp h1 h2

/-!  ### Claim C2: at most one successful delivery per key and day  -/

/-- C2: across any sequence of scheduler ticks with no purge in between, a
given ledger key is successfully delivered at most once; a key that is
already marked is never delivered again and stays marked at the end (ticks
never un-mark, so only the daily purge can return a key to pending). -/
theorem C2_at_most_one_delivery (st : BotState) (ins : List TickIn)
    (k : NKey) :
    (runTicks st ins).2.count k ≤ 1 ∧
    (k ∈ st.notified →
      (runTicks st ins).2.count k = 0 ∧
        k ∈ (runTicks st ins).1.notified) := by
  obtain ⟨hi, ho⟩ := runTicks_shape k ins st
  constructor
  · by_cases hk : k ∈ st.notified
    · simp [(hi hk).2]
    · rcases ho hk with ⟨_, hc⟩ | ⟨_, hc⟩ <;> simp [hc]
  · intro hk
    exact ⟨(hi hk).2, (hi hk).1⟩

/-- Witness for C2: a concrete marked key survives two ticks unmarked
ledgers and is delivered zero times. -/
theorem C2_at_most_one_delivery_witness :
    ((1 : Int), (⟨2024, 6, 21⟩ : CalDate), EventKind.sunrise)
        ∈ (BotState.mk (some ⟨51, 0, "UTC".data⟩) [(1, [])]
            [(1, ⟨2024, 6, 21⟩, EventKind.sunrise)]).notified ∧
    ((runTicks
        (BotState.mk (some ⟨51, 0, "UTC".data⟩) [(1, [])]
          [(1, ⟨2024, 6, 21⟩, EventKind.sunrise)])
        [(oracleW, fun _ _ => ⟨true, true⟩, ⟨0, ⟨2024, 6, 21⟩⟩),
         (oracleW, fun _ _ => ⟨true, true⟩, ⟨30, ⟨2024, 6, 21⟩⟩)]).2.count
      (1, ⟨2024, 6, 21⟩, EventKind.sunrise) = 0 ∧
      (1, (⟨2024, 6, 21⟩ : CalDate), EventKind.sunrise)
        ∈ (runTicks
            (BotState.mk (some ⟨51, 0, "UTC".data⟩) [(1, [])]
              [(1, ⟨2024, 6, 21⟩, EventKind.sunrise)])
            [(oracleW, fun _ _ => ⟨true, true⟩, ⟨0, ⟨2024, 6, 21⟩⟩),
             (oracleW, fun _ _ => ⟨true, true⟩,
               ⟨30, ⟨2024, 6, 21⟩⟩)]).1.notified) :=
  ⟨by decide,
   (C2_at_most_one_delivery
      (BotState.mk (some ⟨51, 0, "UTC".data⟩) [(1, [])]
        [(1, ⟨2024, 6, 21⟩, EventKind.sunrise)])
      [(oracleW, fun _ _ => ⟨true, true⟩, ⟨0, ⟨2024, 6, 21⟩⟩),
       (oracleW, fun _ _ => ⟨true, true⟩, ⟨30, ⟨2024, 6, 21⟩⟩)]
      (1, ⟨2024, 6, 21⟩, EventKind.sunrise)).2 (by decide)⟩

/-!  ### Claim C7: failures in one chat do not block the others  -/

theorem processKey_self_fire (e : SendEnv) (due : Bool) (msg : List Char)
    (k : NKey) (L : List NKey) (hs : alreadySent L k = false)
    (hd : due = true) (he : e.html = true ∨ e.plain = true) :
    k ∈ (processKey e due msg k L).2 := by
  subst hd
  rcases e with ⟨eh, ep⟩
  have hs' : ¬ (alreadySent L k = true) := by simp [hs]
  rcases he with h | h
  · subst h
    simp [processKey, send_notification, hs']
  · subst h
    cases eh <;> simp [processKey, send_notification, hs']

theorem processKey_notin_preserve (e : SendEnv) (due : Bool)
    (msg : List Char) (key : NKey) (L : List NKey) (k : NKey)
    (hk : k ∉ L) (hne : k ≠ key) :
    k ∉ (processKey e due msg key L).1 := by
  rcases e with ⟨eh, ep⟩
  by_cases hs : alreadySent L key = true
  · simpa [processKey, hs] using hk
  · cases due
    · simpa [processKey, hs] using hk
    · cases eh <;> cases ep <;>
        simp [processKey, hs, send_notification, markSent,
          List.mem_cons, hne, hk]

theorem processKey_ledger_sub (e : SendEnv) (due : Bool)
    (msg : List Char) (key : NKey) (L : List NKey) (k : NKey)
    (h : k ∈ (processKey e due msg key L).1) :
    k ∈ L ∨ k ∈ (processKey e due msg key L).2 := by
  rcases e with ⟨eh, ep⟩
  by_cases hs : alreadySent L key = true
  · simp [processKey, hs] at h
    exact Or.inl h
  · cases due
    · simp [processKey, hs] at h
      exact Or.inl h
    · cases eh <;> cases ep <;>
        simp [processKey, hs, send_notification, markSent,
          List.mem_cons] at h ⊢ <;> tauto

theorem processChats_progress (env : Int → EventKind → SendEnv)
    (nowTs : ℚ) (d : CalDate) (srN ssN : ℚ) (cid : Int)
    (subs : ChatSubs) (kind : EventKind) :
    ∀ (chats : Registry) (L : List NKey),
      (cid, subs) ∈ chats →
      (cid, d, kind) ∉ L →
      (kind = EventKind.sunrise → windowDue nowTs srN = true) →
      (kind = EventKind.sunset → windowDue nowTs ssN = true) →
      ((env cid kind).html = true ∨ (env cid kind).plain = true) →
      (cid, d, kind) ∈ (processChats env nowTs d srN ssN chats L).2 := by
  intro chats
  induction chats with
  | nil => intro L hmem; exact absurd hmem (List.not_mem_nil _)
  | cons hd rest ih =>
    intro L hmem hk hdue1 hdue2 he
    obtain ⟨c0, s0⟩ := hd
    rcases List.mem_cons.mp hmem with heq | hrest
    · injection heq with h1 h2
      subst h1
      subst h2
      cases kind
      · have hf := processKey_self_fire (env cid EventKind.sunrise)
          (windowDue nowTs srN) (sunriseMsg d (mentionsOf subs))
          (cid, d, EventKind.sunrise) L
          (by simpa [alreadySent] using hk) (hdue1 rfl) he
        simp only [processChats, List.mem_append]
        exact Or.inl (Or.inl hf)
      · have h1 : (cid, d, EventKind.sunset)
            ∉ (processKey (env cid EventKind.sunrise)
              (windowDue nowTs srN) (sunriseMsg d (mentionsOf subs))
              (cid, d, EventKind.sunrise) L).1 :=
          processKey_notin_preserve _ _ _ _ _ _ hk (by simp)
        have hf := processKey_self_fire (env cid EventKind.sunset)
          (windowDue nowTs ssN) (sunsetMsg d (mentionsOf subs))
          (cid, d, EventKind.sunset)
          (processKey (env cid EventKind.sunrise) (windowDue nowTs srN)
            (sunriseMsg d (mentionsOf subs))
            (cid, d, EventKind.sunrise) L).1
          (by simpa [alreadySent] using h1) (hdue2 rfl) he
        simp only [processChats, List.mem_append]
        exact Or.inl (Or.inr hf)
    · by_cases hk2 : (cid, d, kind)
          ∈ (processKey (env c0 EventKind.sunset) (windowDue nowTs ssN)
            (sunsetMsg d (mentionsOf s0)) (c0, d, EventKind.sunset)
            (processKey (env c0 EventKind.sunrise) (windowDue nowTs srN)
              (sunriseMsg d (mentionsOf s0))
              (c0, d, EventKind.sunrise) L).1).1
      · rcases processKey_ledger_sub _ _ _ _ _ _ hk2 with hk1 | hd2
        · rcases processKey_ledger_sub _ _ _ _ _ _ hk1 with hL | hd1
          · exact absurd hL hk
          · simp only [processChats, List.mem_append]
            exact Or.inl (Or.inl hd1)
        · simp only [processChats, List.mem_append]
          exact Or.inl (Or.inr hd2)
      · have := ih _ hrest hk2 hdue1 hdue2 he
        simp only [processChats, List.mem_append]
        exact Or.inr this

/-- C7: a tick never aborts: the embedded `check_notifications` is a total
function, and whatever the delivery outcomes at all other chats are
(including every attempt failing), a due, not-yet-sent event of a
subscribed chat whose own delivery succeeds is delivered in that same
tick. -/
theorem C7_chat_isolation (o : MathOracle)
    (env : Int → EventKind → SendEnv) (now : TickNow) (st : BotState)
    (loc : GeoLoc) (cid : Int) (subs : ChatSubs) (kind : EventKind)
    (hloc : st.location = some loc)
    (hchat : (cid, subs) ∈ st.subscribedChats)
    (hnew : (cid, now.date, kind) ∉ st.notified)
    (hdue : windowDue now.ts (notifTs o now.date loc kind) = true)
    (hsend : (env cid kind).html = true ∨ (env cid kind).plain = true) :
    (cid, now.date, kind) ∈ (check_notifications o env now st).2 := by
  have hdue1 : kind = EventKind.sunrise →
      windowDue now.ts (notifTs o now.date loc EventKind.sunrise)
        = true := by
    intro hq; rwa [hq] at hdue
  have hdue2 : kind = EventKind.sunset →
      windowDue now.ts (notifTs o now.date loc EventKind.sunset)
        = true := by
    intro hq; rwa [hq] at hdue
  have h := processChats_progress env now.ts now.date
    (notifTs o now.date loc EventKind.sunrise)
    (notifTs o now.date loc EventKind.sunset) cid subs kind
    st.subscribedChats st.notified hchat hnew hdue1 hdue2 hsend
  simpa [check_notifications, hloc] using h

/-- Witness for C7: chat 2's delivery fails in both modes, chat 1 is still
delivered in the same tick. -/
theorem C7_chat_isolation_witness :
    (windowDue
        (notifTs oracleW ⟨2024, 6, 21⟩ ⟨51, 0, "UTC".data⟩
          EventKind.sunrise)
        (notifTs oracleW ⟨2024, 6, 21⟩ ⟨51, 0, "UTC".data⟩
          EventKind.sunrise) = true) ∧
    ((1 : Int), (⟨2024, 6, 21⟩ : CalDate), EventKind.sunrise)
      ∈ (check_notifications oracleW
          (fun c _ => if c = 1 then ⟨true, true⟩ else ⟨false, false⟩)
          ⟨notifTs oracleW ⟨2024, 6, 21⟩ ⟨51, 0, "UTC".data⟩
              EventKind.sunrise, ⟨2024, 6, 21⟩⟩
          ⟨some ⟨51, 0, "UTC".data⟩, [(2, []), (1, [])], []⟩).2 :=
  ⟨by with_unfolding_all decide,
   C7_chat_isolation oracleW
     (fun c _ => if c = 1 then ⟨true, true⟩ else ⟨false, false⟩)
     ⟨notifTs oracleW ⟨2024, 6, 21⟩ ⟨51, 0, "UTC".data⟩
         EventKind.sunrise, ⟨2024, 6, 21⟩⟩
     ⟨some ⟨51, 0, "UTC".data⟩, [(2, []), (1, [])], []⟩
     ⟨51, 0, "UTC".data⟩ 1 [] EventKind.sunrise rfl
     (by decide) (by decide) (by with_unfolding_all decide)
     (Or.inl (by decide))⟩

/-!  ### Claim C1: the shape of the firing window  -/

theorem pyabs_eq_abs (q : ℚ) : pyabs q = |q| := by
  unfold pyabs
  split_ifs with h
  · exact (abs_of_neg h).symm
  · exact (abs_of_nonneg (le_of_not_lt h)).symm

theorem windowDue_iff (a b : ℚ) : windowDue a b = true ↔ |a - b| < 30 := by
  unfold windowDue
  rw [pyabs_eq_abs, decide_eq_true_eq]

theorem processKey_delivered_eq (e : SendEnv) (due : Bool)
    (msg : List Char) (key : NKey) (L : List NKey) (k : NKey)
    (h : k ∈ (processKey e due msg key L).2) : k = key ∧ due = true := by
  by_cases hs : alreadySent L key = true
  · simp [processKey, hs] at h
  · cases due
    · simp [processKey, hs] at h
    · rcases e with ⟨eh, ep⟩
      cases eh <;> cases ep <;>
        simp [processKey, hs, send_notification] at h <;>
        exact ⟨h, rfl⟩

theorem processChats_delivered_window (env : Int → EventKind → SendEnv)
    (nowTs : ℚ) (d : CalDate) (srN ssN : ℚ) :
    ∀ (chats : Registry) (L : List NKey) (k : NKey),
      k ∈ (processChats env nowTs d srN ssN chats L).2 →
      k.2.1 = d ∧
      (k.2.2 = EventKind.sunrise → windowDue nowTs srN = true) ∧
      (k.2.2 = EventKind.sunset → windowDue nowTs ssN = true) := by
  intro chats
  induction chats with
  | nil => intro L k h; simp [processChats] at h
  | cons hd rest ih =>
    intro L k h
    obtain ⟨cid, subs⟩ := hd
    simp only [processChats, List.mem_append] at h
    rcases h with (h1 | h2) | h3
    · obtain ⟨hk, hdue⟩ := processKey_delivered_eq _ _ _ _ _ _ h1
      subst hk
      exact ⟨rfl, fun _ => hdue, fun hco => by simp at hco⟩
    · obtain ⟨hk, hdue⟩ := processKey_delivered_eq _ _ _ _ _ _ h2
      subst hk
      exact ⟨rfl, fun hco => by simp at hco, fun _ => hdue⟩
    · exact ih _ _ h3

/-- C1 (amended): whenever a tick delivers a key, the current time lies in
the symmetric open window of radius 30 s around `event_instant − 10 min`
— `|now − (event − 10 min)| < 30 s` — not in the half-open window
`[event − 10 min, event − 10 min + w)` claimed by the spec (the
counterexample shows a tick strictly before `event − 10 min` firing). -/
theorem C1_window_amended (o : MathOracle)
    (env : Int → EventKind → SendEnv) (now : TickNow) (st : BotState)
    (k : NKey) (h : k ∈ (check_notifications o env now st).2) :
    ∃ loc, st.location = some loc ∧ k.2.1 = now.date ∧
      |now.ts - notifTs o now.date loc k.2.2| < 30 := by
  cases hl : st.location with
  | none => simp [check_notifications, hl] at h
  | some loc =>
    have h' : k ∈ (processChats env now.ts now.date
        (notifTs o now.date loc EventKind.sunrise)
        (notifTs o now.date loc EventKind.sunset)
        st.subscribedChats st.notified).2 := by
      simpa [check_notifications, hl] using h
    obtain ⟨hd, h1, h2⟩ :=
      processChats_delivered_window _ _ _ _ _ _ _ _ h'
    refine ⟨loc, rfl, hd, ?_⟩
    obtain ⟨cid, kd, kind⟩ := k
    cases kind
    · exact (windowDue_iff _ _).mp (h1 rfl)
    · exact (windowDue_iff _ _).mp (h2 rfl)

set_option maxRecDepth 100000 in
set_option maxHeartbeats 1000000 in
/-- Counterexample to C1 as stated: with the sun-times computed by a
concrete oracle, a tick exactly 1 s before `sunrise − 10 min` (hence
outside any window of the form `[sunrise − 10 min, ...)`) delivers the
sunrise notification. -/
theorem C1_counterexample :
    (check_notifications oracleW (fun _ _ => ⟨true, true⟩)
        ⟨notifTs oracleW ⟨2024, 6, 21⟩ ⟨51, 0, "UTC".data⟩
            EventKind.sunrise - 1, ⟨2024, 6, 21⟩⟩
        ⟨some ⟨51, 0, "UTC".data⟩, [(1, [])], []⟩).2
      = [(1, ⟨2024, 6, 21⟩, EventKind.sunrise)] ∧
    notifTs oracleW ⟨2024, 6, 21⟩ ⟨51, 0, "UTC".data⟩
        EventKind.sunrise - 1
      < notifTs oracleW ⟨2024, 6, 21⟩ ⟨51, 0, "UTC".data⟩
          EventKind.sunrise :=
  ⟨by with_unfolding_all decide, by with_unfolding_all decide⟩

set_option maxRecDepth 100000 in
set_option maxHeartbeats 1000000 in
/-- Witness for the amended C1 at the same concrete tick: the delivered
sunrise key was fired within the symmetric 30 s radius window. -/
theorem C1_window_amended_witness :
    ((1 : Int), (⟨2024, 6, 21⟩ : CalDate), EventKind.sunrise)
      ∈ (check_notifications oracleW (fun _ _ => ⟨true, true⟩)
          ⟨notifTs oracleW ⟨2024, 6, 21⟩ ⟨51, 0, "UTC".data⟩
              EventKind.sunrise - 1, ⟨2024, 6, 21⟩⟩
          ⟨some ⟨51, 0, "UTC".data⟩, [(1, [])], []⟩).2 ∧
    |(notifTs oracleW ⟨2024, 6, 21⟩ ⟨51, 0, "UTC".data⟩
          EventKind.sunrise - 1)
        - notifTs oracleW ⟨2024, 6, 21⟩ ⟨51, 0, "UTC".data⟩
            EventKind.sunrise| < 30 := by
  have hmem : ((1 : Int), (⟨2024, 6, 21⟩ : CalDate), EventKind.sunrise)
      ∈ (check_notifications oracleW (fun _ _ => ⟨true, true⟩)
          ⟨notifTs oracleW ⟨2024, 6, 21⟩ ⟨51, 0, "UTC".data⟩
              EventKind.sunrise - 1, ⟨2024, 6, 21⟩⟩
          ⟨some ⟨51, 0, "UTC".data⟩, [(1, [])], []⟩).2 := by
    with_unfolding_all decide
  obtain ⟨loc, hloc, _, habs⟩ := C1_window_amended oracleW
    (fun _ _ => ⟨true, true⟩)
    ⟨notifTs oracleW ⟨2024, 6, 21⟩ ⟨51, 0, "UTC".data⟩
        EventKind.sunrise - 1, ⟨2024, 6, 21⟩⟩
    ⟨some ⟨51, 0, "UTC".data⟩, [(1, [])], []⟩
    (1, ⟨2024, 6, 21⟩, EventKind.sunrise) hmem
  have hl : (⟨51, 0, "UTC".data⟩ : GeoLoc) = loc := by
    injection hloc
  exact ⟨hmem, hl ▸ habs⟩

/-!  ### Claims C4 and C6: the clamp and sunrise < sunset  -/

/-- C4 (amended): the hour-angle cosine is clamped to `[-1, 1]` before
`acos`, so the calculator never hits an `acos` domain error; but in the
degenerate no-sunrise case (`cos_omega ≥ 1`) it returns no sentinel: since
`math.acos 1 = 0`, it returns sunrise = sunset = the solar-transit
instant, an ordinary pair of equal timestamps. -/
theorem C4_clamp_no_sentinel (o : MathOracle) (dt : CalDate)
    (lat lon : ℚ) :
    (-1 ≤ (sunCalc o dt lat lon).cos_omega_clamped ∧
      (sunCalc o dt lat lon).cos_omega_clamped ≤ 1) ∧
    (1 ≤ (sunCalc o dt lat lon).cos_omega → o.acos 1 = 0 →
      (calculate_sun_times o dt lat lon).1
        = (calculate_sun_times o dt lat lon).2) := by
  have hcl : (sunCalc o dt lat lon).cos_omega_clamped
      = max (min ((sunCalc o dt lat lon).cos_omega) 1) (-1) := rfl
  refine ⟨⟨?_, ?_⟩, ?_⟩
  · rw [hcl]
    exact le_max_right _ _
  · rw [hcl]
    exact max_le (min_le_right _ _) (by norm_num)
  · intro hco hacos
    have h1 : (sunCalc o dt lat lon).cos_omega_clamped = 1 := by
      rw [hcl, min_eq_right hco, max_eq_left (by norm_num)]
    have h2 : (sunCalc o dt lat lon).omega_deg
        = rad2deg o (o.acos ((sunCalc o dt lat lon).cos_omega_clamped)) :=
      rfl
    have h3 : (sunCalc o dt lat lon).omega_deg = 0 := by
      rw [h2, h1, hacos]
      simp [rad2deg]
    show julianToTimestamp ((sunCalc o dt lat lon).J_transit
          - (sunCalc o dt lat lon).omega_deg / 360.0)
        = julianToTimestamp ((sunCalc o dt lat lon).J_transit
          + (sunCalc o dt lat lon).omega_deg / 360.0)
    rw [h3]
    norm_num

set_option maxHeartbeats 1000000 in
/-- Counterexample to C4 as stated: at latitude 89 in December (oracle
realising a polar night, `cos_omega = 7 ≥ 1`), `calculate_sun_times`
raises nothing but also returns no "no sunrise" sentinel — it returns two
equal ordinary timestamps, both the solar transit. -/
theorem C4_counterexample :
    1 ≤ (sunCalc oracleP ⟨2024, 12, 21⟩ 89 0).cos_omega ∧
    (calculate_sun_times oracleP ⟨2024, 12, 21⟩ 89 0).1
      = (calculate_sun_times oracleP ⟨2024, 12, 21⟩ 89 0).2 ∧
    (calculate_sun_times oracleP ⟨2024, 12, 21⟩ 89 0).1
      = julianToTimestamp (sunCalc oracleP ⟨2024, 12, 21⟩ 89 0).J_transit
    := by
  refine ⟨?_, ?_, ?_⟩ <;>
    norm_num [calculate_sun_times, julianToTimestamp, sunCalc, oracleP,
      deg2rad, rad2deg, pymod, pytrunc, julian0, Int.fdiv, max_def,
      min_def]

set_option maxHeartbeats 1000000 in
/-- Witness for the amended C4 at the polar-night input. -/
theorem C4_clamp_no_sentinel_witness :
    oracleP.acos 1 = 0 ∧
    1 ≤ (sunCalc oracleP ⟨2024, 12, 21⟩ 89 0).cos_omega ∧
    (calculate_sun_times oracleP ⟨2024, 12, 21⟩ 89 0).1
      = (calculate_sun_times oracleP ⟨2024, 12, 21⟩ 89 0).2 :=
  ⟨by norm_num [oracleP],
   by
     norm_num [sunCalc, oracleP, deg2rad, rad2deg, pymod, pytrunc,
       julian0, Int.fdiv],
   (C4_clamp_no_sentinel oracleP ⟨2024, 12, 21⟩ 89 0).2
     (by
       norm_num [sunCalc, oracleP, deg2rad, rad2deg, pymod, pytrunc,
         julian0, Int.fdiv])
     (by norm_num [oracleP])⟩

/-- C6: whenever the clamped hour-angle cosine lies strictly inside
`(-1, 1)` (the sun both rises and sets) and the `acos` oracle is positive
there with a positive `pi` — true of the real `math.acos` and `math.pi` —
the calculator returns sunrise strictly before sunset. -/
theorem C6_sunrise_before_sunset (o : MathOracle) (dt : CalDate)
    (lat lon : ℚ) (hpi : 0 < o.pi)
    (_hlo : -1 < (sunCalc o dt lat lon).cos_omega_clamped)
    (_hhi : (sunCalc o dt lat lon).cos_omega_clamped < 1)
    (hacos : 0 < o.acos ((sunCalc o dt lat lon).cos_omega_clamped)) :
    (calculate_sun_times o dt lat lon).1
      < (calculate_sun_times o dt lat lon).2 := by
  have h2 : (sunCalc o dt lat lon).omega_deg
      = rad2deg o (o.acos ((sunCalc o dt lat lon).cos_omega_clamped)) :=
    rfl
  have hw : 0 < (sunCalc o dt lat lon).omega_deg := by
    rw [h2]
    unfold rad2deg
    exact div_pos (mul_pos hacos (by norm_num)) hpi
  have hw' : 0 < (sunCalc o dt lat lon).omega_deg / 360 :=
    div_pos hw (by norm_num)
  show julianToTimestamp ((sunCalc o dt lat lon).J_transit
        - (sunCalc o dt lat lon).omega_deg / 360.0)
      < julianToTimestamp ((sunCalc o dt lat lon).J_transit
        + (sunCalc o dt lat lon).omega_deg / 360.0)
  unfold julianToTimestamp
  nlinarith [hw']

set_option maxHeartbeats 1000000 in
/-- Witness for C6 at a mid-latitude summer input under `oracleW`. -/
theorem C6_sunrise_before_sunset_witness :
    (0 : ℚ) < oracleW.pi ∧
    -1 < (sunCalc oracleW ⟨2024, 6, 21⟩ 51 0).cos_omega_clamped ∧
    (sunCalc oracleW ⟨2024, 6, 21⟩ 51 0).cos_omega_clamped < 1 ∧
    0 < oracleW.acos
      ((sunCalc oracleW ⟨2024, 6, 21⟩ 51 0).cos_omega_clamped) ∧
    (calculate_sun_times oracleW ⟨2024, 6, 21⟩ 51 0).1
      < (calculate_sun_times oracleW ⟨2024, 6, 21⟩ 51 0).2 :=
  ⟨by norm_num [oracleW],
   by
     norm_num [sunCalc, oracleW, deg2rad, rad2deg, pymod, pytrunc,
       julian0, Int.fdiv, max_def, min_def],
   by
     norm_num [sunCalc, oracleW, deg2rad, rad2deg, pymod, pytrunc,
       julian0, Int.fdiv, max_def, min_def],
   by
     norm_num [sunCalc, oracleW, deg2rad, rad2deg, pymod, pytrunc,
       julian0, Int.fdiv, max_def, min_def],
   C6_sunrise_before_sunset oracleW ⟨2024, 6, 21⟩ 51 0
     (by norm_num [oracleW])
     (by
       norm_num [sunCalc, oracleW, deg2rad, rad2deg, pymod, pytrunc,
         julian0, Int.fdiv, max_def, min_def])
     (by
       norm_num [sunCalc, oracleW, deg2rad, rad2deg, pymod, pytrunc,
         julian0, Int.fdiv, max_def, min_def])
     (by
       norm_num [sunCalc, oracleW, deg2rad, rad2deg, pymod, pytrunc,
         julian0, Int.fdiv, max_def, min_def])⟩

/-!  ### Claim C10: lemmas about `replaceAll` and `containsSub`  -/

theorem prefixOf_ex {pat s : List Char} :
    pat.isPrefixOf s = true ↔ ∃ t, s = pat ++ t := by
  induction pat generalizing s with
  | nil => simp [List.isPrefixOf]
  | cons p ps ih =>
    cases s with
    | nil => simp [List.isPrefixOf]
    | cons c cs =>
      simp only [List.isPrefixOf, Bool.and_eq_true, beq_iff_eq, ih,
        List.cons_append, List.cons.injEq]
      constructor
      · rintro ⟨rfl, t, rfl⟩
        exact ⟨t, rfl, rfl⟩
      · rintro ⟨t, rfl, rfl⟩
        exact ⟨rfl, t, rfl⟩

theorem isPrefixOf_append_self (pat b : List Char) :
    pat.isPrefixOf (pat ++ b) = true :=
  prefixOf_ex.mpr ⟨b, rfl⟩

theorem replaceAllF_congr (pat repl : List Char) :
    ∀ (f1 : Nat) {s : List Char} (f2 : Nat), s.length ≤ f1 →
      s.length ≤ f2 →
      replaceAllF pat repl f1 s = replaceAllF pat repl f2 s := by
  intro f1
  induction f1 with
  | zero =>
    intro s f2 h1 _
    have hs : s = [] := List.eq_nil_of_length_eq_zero (Nat.le_zero.mp h1)
    subst hs
    cases f2 <;> rfl
  | succ g ih =>
    intro s f2 h1 h2
    cases s with
    | nil => cases f2 <;> rfl
    | cons c cs =>
      cases f2 with
      | zero => simp at h2
      | succ g2 =>
        have hcs1 : cs.length ≤ g := by
          simp only [List.length_cons] at h1
          omega
        have hcs2 : cs.length ≤ g2 := by
          simp only [List.length_cons] at h2
          omega
        have hd : (cs.drop (pat.length - 1)).length ≤ cs.length := by
          simp [List.length_drop]
        simp only [replaceAllF]
        split_ifs with hp
        · exact congrArg (repl ++ ·)
            (ih _ (le_trans hd hcs1) (le_trans hd hcs2))
        · exact congrArg (c :: ·) (ih _ hcs1 hcs2)

theorem replaceAll_cons (pat repl : List Char) (c : Char)
    (cs : List Char) :
    replaceAll pat repl (c :: cs)
      = if pat.isPrefixOf (c :: cs) then
          repl ++ replaceAll pat repl (cs.drop (pat.length - 1))
        else c :: replaceAll pat repl cs := by
  unfold replaceAll
  simp only [List.length_cons, replaceAllF]
  split_ifs with hp
  · exact congrArg (repl ++ ·)
      (replaceAllF_congr pat repl cs.length _
        (by simp [List.length_drop]) le_rfl)
  · rfl

theorem replaceAll_headmatch (pat repl b : List Char) (hne : pat ≠ []) :
    replaceAll pat repl (pat ++ b) = repl ++ replaceAll pat repl b := by
  cases pat with
  | nil => exact absurd rfl hne
  | cons p ps =>
    rw [List.cons_append, replaceAll_cons]
    rw [if_pos (by rw [← List.cons_append]; exact isPrefixOf_append_self _ _)]
    have hl : (p :: ps).length - 1 = ps.length := by simp
    rw [hl, List.drop_left]

theorem replaceAll_passthrough (pat repl : List Char) :
    ∀ (a b : List Char),
      (∀ i, i < a.length → ¬ pat.isPrefixOf ((a ++ b).drop i) = true) →
      replaceAll pat repl (a ++ b) = a ++ replaceAll pat repl b := by
  intro a
  induction a with
  | nil => intro b _; simp
  | cons c cs ih =>
    intro b h
    rw [List.cons_append, replaceAll_cons]
    rw [if_neg (by
      have := h 0 (by simp)
      simpa using this)]
    rw [List.cons_append]
    refine congrArg (c :: ·) (ih b fun i hi hm => ?_)
    refine h (i + 1) (by simpa using Nat.succ_lt_succ hi) ?_
    simpa [List.drop_succ_cons] using hm

theorem replaceAll_scan (pat repl : List Char) (hne : pat ≠ []) :
    ∀ (n : Nat) (a b : List Char), a.length ≤ n →
      (∀ i, i < a.length → pat.isPrefixOf ((a ++ b).drop i) = true →
        i + pat.length ≤ a.length) →
      ∃ x, replaceAll pat repl (a ++ b) = x ++ replaceAll pat repl b := by
  intro n
  induction n with
  | zero =>
    intro a b h1 _
    have ha : a = [] := List.eq_nil_of_length_eq_zero (Nat.le_zero.mp h1)
    subst ha
    exact ⟨[], by simp⟩
  | succ g ih =>
    intro a b h1 h2
    cases a with
    | nil => exact ⟨[], by simp⟩
    | cons c cs =>
      have hpat1 : 1 ≤ pat.length := by
        cases pat with
        | nil => exact absurd rfl hne
        | cons _ _ => simp
      have hcs : cs.length ≤ g := by
        simp only [List.length_cons] at h1
        omega
      by_cases hp : pat.isPrefixOf (c :: (cs ++ b)) = true
      · have hlen : pat.length ≤ cs.length + 1 := by
          have := h2 0 (by simp)
            (by simpa [List.cons_append] using hp)
          simpa using this
        rw [List.cons_append, replaceAll_cons, if_pos hp]
        have hsplit : (cs ++ b).drop (pat.length - 1)
            = cs.drop (pat.length - 1) ++ b := by
          rw [List.drop_append_eq_append_drop]
          have h0 : pat.length - 1 - cs.length = 0 := by omega
          rw [h0, List.drop_zero]
        rw [hsplit]
        have hlen2 : (cs.drop (pat.length - 1)).length ≤ g := by
          simp only [List.length_drop]
          omega
        have htrans : ∀ i, i < (cs.drop (pat.length - 1)).length →
            pat.isPrefixOf
              ((cs.drop (pat.length - 1) ++ b).drop i) = true →
            i + pat.length ≤ (cs.drop (pat.length - 1)).length := by
          intro i hi hm
          have e1 : (cs.drop (pat.length - 1) ++ b).drop i
              = (cs ++ b).drop (pat.length - 1 + i) := by
            rw [← hsplit, List.drop_drop, Nat.add_comm]
          have e2 : ((c :: cs) ++ b).drop (pat.length + i)
              = (cs ++ b).drop (pat.length - 1 + i) := by
            rw [List.cons_append,
              show pat.length + i = (pat.length - 1 + i) + 1 by omega,
              List.drop_succ_cons]
          have hm' : pat.isPrefixOf
              (((c :: cs) ++ b).drop (pat.length + i)) = true := by
            rw [e2, ← e1]
            exact hm
          have hb := h2 (pat.length + i)
            (by
              simp only [List.length_drop] at hi
              simp only [List.length_cons]
              omega) hm'
          simp only [List.length_cons] at hb
          simp only [List.length_drop]
          omega
        obtain ⟨x, hx⟩ := ih (cs.drop (pat.length - 1)) b hlen2 htrans
        exact ⟨repl ++ x, by rw [hx, List.append_assoc]⟩
      · rw [List.cons_append, replaceAll_cons, if_neg (by
          simpa [List.cons_append] using hp)]
        obtain ⟨x, hx⟩ := ih cs b hcs (fun i hi hm => by
          have hb := h2 (i + 1)
            (by simpa using Nat.succ_lt_succ hi)
            (by simpa [List.cons_append, List.drop_succ_cons] using hm)
          simp only [List.length_cons] at hb
          omega)
        exact ⟨c :: x, by rw [hx, List.cons_append]⟩

theorem matchAt_head {pat : List Char} {p0 : Char}
    (hp : pat.head? = some p0) (a b : List Char) (i : Nat)
    (hi : i < a.length)
    (hm : pat.isPrefixOf ((a ++ b).drop i) = true) :
    a.get ⟨i, hi⟩ = p0 := by
  obtain ⟨t, ht⟩ := prefixOf_ex.mp hm
  cases pat with
  | nil => simp at hp
  | cons q qs =>
    have hq : q = p0 := by simpa using hp
    have hilen : i < (a ++ b).length := by
      simp only [List.length_append]
      omega
    rw [List.drop_eq_getElem_cons hilen, List.cons_append] at ht
    have hget : (a ++ b).get ⟨i, hilen⟩ = q := by
      have := (List.cons.injEq _ _ _ _).mp ht
      simpa using this.1
    rw [← hq, ← hget]
    simp [List.getElem_append_left, hi]

theorem noStart_headchar {pat : List Char} {p0 : Char}
    (hp : pat.head? = some p0) (a b : List Char)
    (ha : ∀ c ∈ a, c ≠ p0) :
    ∀ i, i < a.length → ¬ pat.isPrefixOf ((a ++ b).drop i) = true := by
  intro i hi hm
  exact ha _ (a.get_mem i hi) (matchAt_head hp a b i hi hm)

theorem span_head_eq {pat a b : List Char} {i : Nat}
    (hm : pat.isPrefixOf ((a ++ b).drop i) = true) (h1 : i < a.length)
    (h2 : a.length < i + pat.length) :
    pat[a.length - i]? = b[0]? := by
  obtain ⟨t, ht⟩ := prefixOf_ex.mp hm
  have hd : (a ++ b).drop i = a.drop i ++ b := by
    rw [List.drop_append_eq_append_drop]
    have h0 : i - a.length = 0 := by omega
    rw [h0, List.drop_zero]
  rw [hd] at ht
  have e1 : (a.drop i ++ b)[a.length - i]? = b[0]? := by
    rw [List.getElem?_append_right (by simp [List.length_drop])]
    congr 1
    simp only [List.length_drop]
    omega
  have e2 : (pat ++ t)[a.length - i]? = pat[a.length - i]? := by
    rw [List.getElem?_append]
    rw [if_pos (by omega)]
  rw [ht, e2] at e1
  exact e1

theorem scanSafe_of_span {pat a b : List Char}
    (hspan : ∀ j, 1 ≤ j → j < pat.length → pat[j]? ≠ b[0]?) :
    ∀ i, i < a.length → pat.isPrefixOf ((a ++ b).drop i) = true →
      i + pat.length ≤ a.length := by
  intro i hi hm
  by_contra hlt
  push_neg at hlt
  exact hspan (a.length - i) (by omega) (by omega) (span_head_eq hm hi hlt)

theorem prefixOf_append_left {pat x b : List Char}
    (h : pat.isPrefixOf (x ++ b) = true) (hl : pat.length ≤ x.length) :
    pat.isPrefixOf x = true := by
  obtain ⟨t, ht⟩ := prefixOf_ex.mp h
  have hx := congrArg (List.take x.length) ht
  rw [List.take_left] at hx
  have hx2 : x = pat ++ t.take (x.length - pat.length) := by
    conv_lhs => rw [hx]
    rw [List.take_append_eq_append_take, List.take_of_length_le hl]
  exact prefixOf_ex.mpr ⟨_, hx2⟩

theorem containsSub_of_matchAt (pat : List Char) :
    ∀ (s : List Char) (i : Nat), pat.isPrefixOf (s.drop i) = true →
      containsSub pat s = true := by
  intro s
  induction s with
  | nil =>
    intro i h
    rw [List.drop_nil] at h
    cases pat with
    | nil => simp [containsSub, List.isEmpty]
    | cons p ps => simp [List.isPrefixOf] at h
  | cons c cs ih =>
    intro i h
    cases i with
    | zero =>
      rw [List.drop_zero] at h
      simp [containsSub, h]
    | succ j =>
      rw [List.drop_succ_cons] at h
      simp [containsSub, ih j h]

theorem noStart_of_blocked {pat : List Char} (a b : List Char)
    (hin : containsSub pat a = false)
    (hspan : ∀ j, 1 ≤ j → j < pat.length → pat[j]? ≠ b[0]?) :
    ∀ i, i < a.length → ¬ pat.isPrefixOf ((a ++ b).drop i) = true := by
  intro i hi hm
  by_cases hle : i + pat.length ≤ a.length
  · have hd : (a ++ b).drop i = a.drop i ++ b := by
      rw [List.drop_append_eq_append_drop]
      have h0 : i - a.length = 0 := by omega
      rw [h0, List.drop_zero]
    rw [hd] at hm
    have hpre := prefixOf_append_left hm
      (by simp only [List.length_drop]; omega)
    have hcon := containsSub_of_matchAt pat a i hpre
    rw [hin] at hcon
    exact Bool.noConfusion hcon
  · exact hspan (a.length - i) (by omega) (by omega) (span_head_eq hm hi (by omega))

theorem not_prefixOf_of_getElem {pat s : List Char} (j : Nat)
    (hj : j < pat.length) (h : pat[j]? ≠ s[j]?) :
    ¬ pat.isPrefixOf s = true := by
  intro hm
  obtain ⟨t, ht⟩ := prefixOf_ex.mp hm
  apply h
  rw [ht, List.getElem?_append, if_pos hj]

theorem containsSub_nil_pat (s : List Char) :
    containsSub [] s = true := by
  cases s <;> simp [containsSub, List.isPrefixOf, List.isEmpty]

theorem containsSub_append_pat (pat x y : List Char) :
    containsSub pat (x ++ (pat ++ y)) = true := by
  induction x with
  | nil =>
    cases pat with
    | nil => simpa using containsSub_nil_pat y
    | cons p ps =>
      rw [List.nil_append, List.cons_append]
      simp [containsSub,
        show (p :: ps).isPrefixOf (p :: (ps ++ y)) = true from
          isPrefixOf_append_self _ _]
  | cons c cs ih =>
    rw [List.cons_append]
    simp [containsSub, ih]

theorem ne_of_isDigit {c x : Char} (hc : c.isDigit = true)
    (hx : x.isDigit = false) : c ≠ x := by
  intro he
  subst he
  rw [hc] at hx
  exact Bool.noConfusion hx

/-- C10 (amended): the plain-text fallback is `msg` with the three literal
replacements applied; for a mention `<a href='tg://user?id=UID'>NAME</a>`
whose `NAME` contains none of the three replaced substrings, the fallback
contains `"UID NAME"` — whatever text surrounds the mention. -/
theorem C10_plain_fallback (pre uid name post : List Char)
    (hu : uid ≠ []) (hud : ∀ c ∈ uid, c.isDigit = true)
    (h1 : containsSub tagOpenPat name = false)
    (h2 : containsSub tagMidPat name = false)
    (h3 : containsSub tagClosePat name = false) :
    containsSub (uid ++ ' ' :: name)
      (plainMsg (pre ++ (tagOpenPat ++ (uid ++ (tagMidPat ++ (name
        ++ (tagClosePat ++ post))))))) = true := by
  cases uid with
  | nil => exact absurd rfl hu
  | cons u0 urest =>
    have hu0 : u0.isDigit = true := hud u0 (List.mem_cons_self _ _)
    have hOne : tagOpenPat ≠ [] := by decide
    have hMne : tagMidPat ≠ [] := by decide
    have hCne : tagClosePat ≠ [] := by decide
    have hO : ∀ j, j < tagOpenPat.length → 1 ≤ j →
        tagOpenPat[j]? ≠ some '<' := by decide
    have hdigO : ∀ c ∈ u0 :: urest, c ≠ '<' :=
      fun c hc => ne_of_isDigit (hud c hc) (by decide)
    have hdigQ : ∀ c ∈ u0 :: urest, c ≠ '\'' :=
      fun c hc => ne_of_isDigit (hud c hc) (by decide)
    have hneu : ∀ x : Char, x.isDigit = false →
        (some x : Option Char) ≠ some u0 :=
      fun x hx he => ne_of_isDigit hu0 hx (Option.some.inj he).symm
    -- === pass 1: delete tagOpenPat ===
    obtain ⟨x1, hx1⟩ := replaceAll_scan tagOpenPat [] hOne pre.length pre
      (tagOpenPat ++ ((u0 :: urest) ++ (tagMidPat ++ (name
        ++ (tagClosePat ++ post))))) le_rfl
      (scanSafe_of_span (fun j hj1 hj2 => by
        rw [show (tagOpenPat ++ ((u0 :: urest) ++ (tagMidPat ++ (name
          ++ (tagClosePat ++ post)))))[0]? = some '<' by
          simp [tagOpenPat]]
        exact hO j hj2 hj1))
    have e2 : replaceAll tagOpenPat [] (tagOpenPat ++ ((u0 :: urest)
        ++ (tagMidPat ++ (name ++ (tagClosePat ++ post)))))
        = replaceAll tagOpenPat [] ((u0 :: urest) ++ (tagMidPat ++ (name
          ++ (tagClosePat ++ post)))) := by
      rw [replaceAll_headmatch _ _ _ hOne, List.nil_append]
    have e3 : replaceAll tagOpenPat [] ((u0 :: urest) ++ (tagMidPat
        ++ (name ++ (tagClosePat ++ post))))
        = (u0 :: urest) ++ replaceAll tagOpenPat [] (tagMidPat
          ++ (name ++ (tagClosePat ++ post))) :=
      replaceAll_passthrough _ _ _ _
        (noStart_headchar (show tagOpenPat.head? = some '<' from rfl)
          _ _ hdigO)
    have e4 : replaceAll tagOpenPat [] (tagMidPat ++ (name
        ++ (tagClosePat ++ post)))
        = tagMidPat ++ replaceAll tagOpenPat [] (name
          ++ (tagClosePat ++ post)) :=
      replaceAll_passthrough _ _ _ _
        (noStart_headchar (show tagOpenPat.head? = some '<' from rfl)
          _ _ (by decide))
    have e5 : replaceAll tagOpenPat [] (name ++ (tagClosePat ++ post))
        = name ++ replaceAll tagOpenPat [] (tagClosePat ++ post) :=
      replaceAll_passthrough _ _ _ _
        (noStart_of_blocked _ _ h1 (fun j hj1 hj2 => by
          rw [show (tagClosePat ++ post)[0]? = some '<' by
            simp [tagClosePat]]
          exact hO j hj2 hj1))
    have hclose : ∀ i, i < tagClosePat.length →
        ¬ tagOpenPat.isPrefixOf ((tagClosePat ++ post).drop i) = true := by
      intro i hi
      have hi4 : i < 4 := hi
      interval_cases i
      · exact not_prefixOf_of_getElem 1 (by decide) (by
          rw [show ((tagClosePat ++ post).drop 0)[1]? = some '/' by
            simp [tagClosePat]]
          decide)
      · exact not_prefixOf_of_getElem 0 (by decide) (by
          rw [show ((tagClosePat ++ post).drop 1)[0]? = some '/' by
            simp [tagClosePat]]
          decide)
      · exact not_prefixOf_of_getElem 0 (by decide) (by
          rw [show ((tagClosePat ++ post).drop 2)[0]? = some 'a' by
            simp [tagClosePat]]
          decide)
      · exact not_prefixOf_of_getElem 0 (by decide) (by
          rw [show ((tagClosePat ++ post).drop 3)[0]? = some '>' by
            simp [tagClosePat]]
          decide)
    have e6 : replaceAll tagOpenPat [] (tagClosePat ++ post)
        = tagClosePat ++ replaceAll tagOpenPat [] post :=
      replaceAll_passthrough _ _ _ _ hclose
    have P1 : replaceAll tagOpenPat [] (pre ++ (tagOpenPat
        ++ ((u0 :: urest) ++ (tagMidPat ++ (name
          ++ (tagClosePat ++ post))))))
        = x1 ++ ((u0 :: urest) ++ (tagMidPat ++ (name ++ (tagClosePat
          ++ replaceAll tagOpenPat [] post)))) := by
      rw [hx1, e2, e3, e4, e5, e6]
    -- === pass 2: replace tagMidPat by a space ===
    obtain ⟨x2, hx2⟩ := replaceAll_scan tagMidPat [' '] hMne x1.length x1
      ((u0 :: urest) ++ (tagMidPat ++ (name ++ (tagClosePat
        ++ replaceAll tagOpenPat [] post)))) le_rfl
      (scanSafe_of_span (fun j hj1 hj2 => by
        rw [show ((u0 :: urest) ++ (tagMidPat ++ (name ++ (tagClosePat
          ++ replaceAll tagOpenPat [] post))))[0]? = some u0 by simp]
        have hj2' : j < 2 := hj2
        interval_cases j
        exact hneu '>' (by decide)))
    have f3 : replaceAll tagMidPat [' '] ((u0 :: urest) ++ (tagMidPat
        ++ (name ++ (tagClosePat ++ replaceAll tagOpenPat [] post))))
        = (u0 :: urest) ++ replaceAll tagMidPat [' '] (tagMidPat
          ++ (name ++ (tagClosePat ++ replaceAll tagOpenPat [] post))) :=
      replaceAll_passthrough _ _ _ _
        (noStart_headchar (show tagMidPat.head? = some '\'' from rfl)
          _ _ hdigQ)
    have f4 : replaceAll tagMidPat [' '] (tagMidPat ++ (name
        ++ (tagClosePat ++ replaceAll tagOpenPat [] post)))
        = ' ' :: replaceAll tagMidPat [' '] (name ++ (tagClosePat
          ++ replaceAll tagOpenPat [] post)) := by
      rw [replaceAll_headmatch _ _ _ hMne, List.singleton_append]
    have f5 : replaceAll tagMidPat [' '] (name ++ (tagClosePat
        ++ replaceAll tagOpenPat [] post))
        = name ++ replaceAll tagMidPat [' '] (tagClosePat
          ++ replaceAll tagOpenPat [] post) :=
      replaceAll_passthrough _ _ _ _
        (noStart_of_blocked _ _ h2 (fun j hj1 hj2 => by
          rw [show (tagClosePat ++ replaceAll tagOpenPat [] post)[0]?
            = some '<' by simp [tagClosePat]]
          have hj2' : j < 2 := hj2
          interval_cases j
          decide))
    have f6 : replaceAll tagMidPat [' '] (tagClosePat
        ++ replaceAll tagOpenPat [] post)
        = tagClosePat ++ replaceAll tagMidPat [' ']
          (replaceAll tagOpenPat [] post) :=
      replaceAll_passthrough _ _ _ _
        (noStart_headchar (show tagMidPat.head? = some '\'' from rfl)
          _ _ (by decide))
    have P2 : replaceAll tagMidPat [' '] (x1 ++ ((u0 :: urest)
        ++ (tagMidPat ++ (name ++ (tagClosePat
          ++ replaceAll tagOpenPat [] post)))))
        = x2 ++ ((u0 :: urest) ++ (' ' :: (name ++ (tagClosePat
          ++ replaceAll tagMidPat [' ']
            (replaceAll tagOpenPat [] post))))) := by
      rw [hx2, f3, f4, f5, f6]
    -- === pass 3: delete tagClosePat ===
    obtain ⟨x3, hx3⟩ := replaceAll_scan tagClosePat [] hCne x2.length x2
      ((u0 :: urest) ++ (' ' :: (name ++ (tagClosePat
        ++ replaceAll tagMidPat [' '] (replaceAll tagOpenPat [] post)))))
      le_rfl
      (scanSafe_of_span (fun j hj1 hj2 => by
        rw [show ((u0 :: urest) ++ (' ' :: (name ++ (tagClosePat
          ++ replaceAll tagMidPat [' ']
            (replaceAll tagOpenPat [] post)))))[0]? = some u0 by simp]
        have hj2' : j < 4 := hj2
        interval_cases j
        · exact hneu '/' (by decide)
        · exact hneu 'a' (by decide)
        · exact hneu '>' (by decide)))
    have g3 : replaceAll tagClosePat [] ((u0 :: urest) ++ (' ' :: (name
        ++ (tagClosePat ++ replaceAll tagMidPat [' ']
          (replaceAll tagOpenPat [] post)))))
        = (u0 :: urest) ++ replaceAll tagClosePat [] (' ' :: (name
          ++ (tagClosePat ++ replaceAll tagMidPat [' ']
            (replaceAll tagOpenPat [] post)))) :=
      replaceAll_passthrough _ _ _ _
        (noStart_headchar (show tagClosePat.head? = some '<' from rfl)
          _ _ hdigO)
    have g4 : replaceAll tagClosePat [] (' ' :: (name ++ (tagClosePat
        ++ replaceAll tagMidPat [' '] (replaceAll tagOpenPat [] post))))
        = ' ' :: replaceAll tagClosePat [] (name ++ (tagClosePat
          ++ replaceAll tagMidPat [' ']
            (replaceAll tagOpenPat [] post))) := by
      rw [← List.singleton_append]
      rw [replaceAll_passthrough _ _ [' '] _
        (noStart_headchar (show tagClosePat.head? = some '<' from rfl)
          _ _ (by decide))]
      rw [List.singleton_append]
    have g5 : replaceAll tagClosePat [] (name ++ (tagClosePat
        ++ replaceAll tagMidPat [' '] (replaceAll tagOpenPat [] post)))
        = name ++ replaceAll tagClosePat [] (tagClosePat
          ++ replaceAll tagMidPat [' ']
            (replaceAll tagOpenPat [] post)) :=
      replaceAll_passthrough _ _ _ _
        (noStart_of_blocked _ _ h3 (fun j hj1 hj2 => by
          rw [show (tagClosePat ++ replaceAll tagMidPat [' ']
            (replaceAll tagOpenPat [] post))[0]? = some '<' by
            simp [tagClosePat]]
          have hj2' : j < 4 := hj2
          interval_cases j <;> decide))
    have g6 : replaceAll tagClosePat [] (tagClosePat
        ++ replaceAll tagMidPat [' '] (replaceAll tagOpenPat [] post))
        = replaceAll tagClosePat [] (replaceAll tagMidPat [' ']
          (replaceAll tagOpenPat [] post)) := by
      rw [replaceAll_headmatch _ _ _ hCne, List.nil_append]
    have P3 : replaceAll tagClosePat [] (x2 ++ ((u0 :: urest)
        ++ (' ' :: (name ++ (tagClosePat ++ replaceAll tagMidPat [' ']
          (replaceAll tagOpenPat [] post))))))
        = x3 ++ ((u0 :: urest) ++ (' ' :: (name
          ++ replaceAll tagClosePat [] (replaceAll tagMidPat [' ']
            (replaceAll tagOpenPat [] post))))) := by
      rw [hx3, g3, g4, g5, g6]
    -- === assemble ===
    show containsSub ((u0 :: urest) ++ ' ' :: name)
      (replaceAll tagClosePat [] (replaceAll tagMidPat [' ']
        (replaceAll tagOpenPat [] (pre ++ (tagOpenPat ++ ((u0 :: urest)
          ++ (tagMidPat ++ (name ++ (tagClosePat ++ post))))))))) = true
    rw [P1, P2, P3]
    rw [show (u0 :: urest) ++ (' ' :: (name ++ replaceAll tagClosePat []
        (replaceAll tagMidPat [' '] (replaceAll tagOpenPat [] post))))
      = ((u0 :: urest) ++ ' ' :: name) ++ replaceAll tagClosePat []
          (replaceAll tagMidPat [' '] (replaceAll tagOpenPat [] post))
      by simp]
    exact containsSub_append_pat _ _ _

/-- Counterexample to C10 as stated: for the mention of user 1 with the
display name `x</a>y`, the plain fallback is `1 xy` and does not contain
`"1 x</a>y"` (i.e. "UID NAME") — the third replacement also deletes the
`</a>` inside the name. -/
theorem C10_counterexample :
    mention 1 ("x</a>y".data)
      = "<a href='tg://user?id=1'>x</a>y</a>".data ∧
    plainMsg (mention 1 ("x</a>y".data)) = "1 xy".data ∧
    containsSub ("1 x</a>y".data)
      (plainMsg (mention 1 ("x</a>y".data))) = false := by
  refine ⟨by decide, by decide, by decide⟩

/-- Witness for the amended C10 on a concrete surrounding text, user id
and pattern-free name. -/
theorem C10_plain_fallback_witness :
    ("42".data ≠ []) ∧ (∀ c ∈ "42".data, c.isDigit = true) ∧
    containsSub tagOpenPat ("Bob".data) = false ∧
    containsSub tagMidPat ("Bob".data) = false ∧
    containsSub tagClosePat ("Bob".data) = false ∧
    containsSub ("42".data ++ ' ' :: "Bob".data)
      (plainMsg ("Hi ".data ++ (tagOpenPat ++ ("42".data ++ (tagMidPat
        ++ ("Bob".data ++ (tagClosePat ++ "!".data))))))) = true :=
  ⟨by decide, by decide, by decide, by decide, by decide,
   C10_plain_fallback ("Hi ".data) ("42".data) ("Bob".data) ("!".data)
     (by decide) (by decide) (by decide) (by decide) (by decide)⟩
